import Mathlib

/-!
Verification of the RS485_WTVB02 protocol code.

This file gives a shallow embedding, in Lean 4, of the protocol core of the
repository: the CRC-16/MODBUS checksum engine and command builders of
`example_code/device_model.py` (`get_crc`, `get_readBytes`, `get_writeBytes`),
the byte-stream frame assembler (`onDataReceived`), the payload decoder
(`processData`, `getSignInt16`), the unlock/write/save sequence (`writeReg`,
`unlock`, `save`), and the vibration decoder of `main.py`
(`decode_vibration_data`).  Bytes are modelled as natural numbers (the Python
`bytes` elements are 0..255); Python float arithmetic on sensor values is
modelled by exact rational arithmetic, with `round(x, 3)` modelled as
round-half-to-even at three decimal places (Python's `round` is
round-half-to-even; the claims proved below never depend on a tie).
Theorems about the embedded definitions follow the definitions.
-/

namespace WTVB02

/-- CRC high-byte lookup table, copied from `DeviceModel.auchCRCHi`. -/
def auchCRCHi : List Nat := [
  0x00, 0xC1, 0x81, 0x40, 0x01, 0xC0, 0x80, 0x41, 0x01, 0xC0, 0x80, 0x41, 0x00, 0xC1, 0x81,
  0x40, 0x01, 0xC0, 0x80, 0x41, 0x00, 0xC1, 0x81, 0x40, 0x00, 0xC1, 0x81, 0x40, 0x01, 0xC0,
  0x80, 0x41, 0x01, 0xC0, 0x80, 0x41, 0x00, 0xC1, 0x81, 0x40, 0x00, 0xC1, 0x81, 0x40, 0x01,
  0xC0, 0x80, 0x41, 0x00, 0xC1, 0x81, 0x40, 0x01, 0xC0, 0x80, 0x41, 0x01, 0xC0, 0x80, 0x41,
  0x00, 0xC1, 0x81, 0x40, 0x01, 0xC0, 0x80, 0x41, 0x00, 0xC1, 0x81, 0x40, 0x00, 0xC1, 0x81,
  0x40, 0x01, 0xC0, 0x80, 0x41, 0x00, 0xC1, 0x81, 0x40, 0x01, 0xC0, 0x80, 0x41, 0x01, 0xC0,
  0x80, 0x41, 0x00, 0xC1, 0x81, 0x40, 0x00, 0xC1, 0x81, 0x40, 0x01, 0xC0, 0x80, 0x41, 0x01,
  0xC0, 0x80, 0x41, 0x00, 0xC1, 0x81, 0x40, 0x01, 0xC0, 0x80, 0x41, 0x00, 0xC1, 0x81, 0x40,
  0x00, 0xC1, 0x81, 0x40, 0x01, 0xC0, 0x80, 0x41, 0x01, 0xC0, 0x80, 0x41, 0x00, 0xC1, 0x81,
  0x40, 0x00, 0xC1, 0x81, 0x40, 0x01, 0xC0, 0x80, 0x41, 0x00, 0xC1, 0x81, 0x40, 0x01, 0xC0,
  0x80, 0x41, 0x01, 0xC0, 0x80, 0x41, 0x00, 0xC1, 0x81, 0x40, 0x00, 0xC1, 0x81, 0x40, 0x01,
  0xC0, 0x80, 0x41, 0x01, 0xC0, 0x80, 0x41, 0x00, 0xC1, 0x81, 0x40, 0x01, 0xC0, 0x80, 0x41,
  0x00, 0xC1, 0x81, 0x40, 0x00, 0xC1, 0x81, 0x40, 0x01, 0xC0, 0x80, 0x41, 0x00, 0xC1, 0x81,
  0x40, 0x01, 0xC0, 0x80, 0x41, 0x01, 0xC0, 0x80, 0x41, 0x00, 0xC1, 0x81, 0x40, 0x01, 0xC0,
  0x80, 0x41, 0x00, 0xC1, 0x81, 0x40, 0x00, 0xC1, 0x81, 0x40, 0x01, 0xC0, 0x80, 0x41, 0x01,
  0xC0, 0x80, 0x41, 0x00, 0xC1, 0x81, 0x40, 0x00, 0xC1, 0x81, 0x40, 0x01, 0xC0, 0x80, 0x41,
  0x00, 0xC1, 0x81, 0x40, 0x01, 0xC0, 0x80, 0x41, 0x01, 0xC0, 0x80, 0x41, 0x00, 0xC1, 0x81,
  0x40]

/-- CRC low-byte lookup table, copied from `DeviceModel.auchCRCLo`. -/
def auchCRCLo : List Nat := [
  0x00, 0xC0, 0xC1, 0x01, 0xC3, 0x03, 0x02, 0xC2, 0xC6, 0x06, 0x07, 0xC7, 0x05, 0xC5, 0xC4,
  0x04, 0xCC, 0x0C, 0x0D, 0xCD, 0x0F, 0xCF, 0xCE, 0x0E, 0x0A, 0xCA, 0xCB, 0x0B, 0xC9, 0x09,
  0x08, 0xC8, 0xD8, 0x18, 0x19, 0xD9, 0x1B, 0xDB, 0xDA, 0x1A, 0x1E, 0xDE, 0xDF, 0x1F, 0xDD,
  0x1D, 0x1C, 0xDC, 0x14, 0xD4, 0xD5, 0x15, 0xD7, 0x17, 0x16, 0xD6, 0xD2, 0x12, 0x13, 0xD3,
  0x11, 0xD1, 0xD0, 0x10, 0xF0, 0x30, 0x31, 0xF1, 0x33, 0xF3, 0xF2, 0x32, 0x36, 0xF6, 0xF7,
  0x37, 0xF5, 0x35, 0x34, 0xF4, 0x3C, 0xFC, 0xFD, 0x3D, 0xFF, 0x3F, 0x3E, 0xFE, 0xFA, 0x3A,
  0x3B, 0xFB, 0x39, 0xF9, 0xF8, 0x38, 0x28, 0xE8, 0xE9, 0x29, 0xEB, 0x2B, 0x2A, 0xEA, 0xEE,
  0x2E, 0x2F, 0xEF, 0x2D, 0xED, 0xEC, 0x2C, 0xE4, 0x24, 0x25, 0xE5, 0x27, 0xE7, 0xE6, 0x26,
  0x22, 0xE2, 0xE3, 0x23, 0xE1, 0x21, 0x20, 0xE0, 0xA0, 0x60, 0x61, 0xA1, 0x63, 0xA3, 0xA2,
  0x62, 0x66, 0xA6, 0xA7, 0x67, 0xA5, 0x65, 0x64, 0xA4, 0x6C, 0xAC, 0xAD, 0x6D, 0xAF, 0x6F,
  0x6E, 0xAE, 0xAA, 0x6A, 0x6B, 0xAB, 0x69, 0xA9, 0xA8, 0x68, 0x78, 0xB8, 0xB9, 0x79, 0xBB,
  0x7B, 0x7A, 0xBA, 0xBE, 0x7E, 0x7F, 0xBF, 0x7D, 0xBD, 0xBC, 0x7C, 0xB4, 0x74, 0x75, 0xB5,
  0x77, 0xB7, 0xB6, 0x76, 0x72, 0xB2, 0xB3, 0x73, 0xB1, 0x71, 0x70, 0xB0, 0x50, 0x90, 0x91,
  0x51, 0x93, 0x53, 0x52, 0x92, 0x96, 0x56, 0x57, 0x97, 0x55, 0x95, 0x94, 0x54, 0x9C, 0x5C,
  0x5D, 0x9D, 0x5F, 0x9F, 0x9E, 0x5E, 0x5A, 0x9A, 0x9B, 0x5B, 0x99, 0x59, 0x58, 0x98, 0x88,
  0x48, 0x49, 0x89, 0x4B, 0x8B, 0x8A, 0x4A, 0x4E, 0x8E, 0x8F, 0x4F, 0x8D, 0x4D, 0x4C, 0x8C,
  0x44, 0x84, 0x85, 0x45, 0x87, 0x47, 0x46, 0x86, 0x82, 0x42, 0x43, 0x83, 0x41, 0x81, 0x80,
  0x40]

/-- One iteration of the loop body of `DeviceModel.get_crc`: given the pair
of accumulators `(tempH, tempL)` and the next input byte, produce the updated
accumulators. -/
def crcStep (p : Nat × Nat) (b : Nat) : Nat × Nat :=
  let tempIndex := (p.1 ^^^ b) &&& 0xff
  ((p.2 ^^^ auchCRCHi.getD tempIndex 0) &&& 0xff, auchCRCLo.getD tempIndex 0)

/-- The accumulator pair after running `get_crc`'s loop over the first `dlen`
bytes of `datas`, starting from the initial accumulators `0xff, 0xff`. -/
def crcPair (datas : List Nat) (dlen : Nat) : Nat × Nat :=
  (datas.take dlen).foldl crcStep (0xff, 0xff)

/-- `DeviceModel.get_crc`: table-driven CRC-16/MODBUS over the first `dlen`
bytes of `datas`, returned as `(tempH <<< 8) ||| tempL`. -/
def get_crc (datas : List Nat) (dlen : Nat) : Nat :=
  let p := crcPair datas dlen
  (p.1 <<< 8) ||| p.2

/-- `DeviceModel.getSignInt16`: two's-complement sign extension of a 16-bit
unsigned value. -/
def getSignInt16 (num : Nat) : Int :=
  if num ≥ 2 ^ 15 then (num : Int) - 2 ^ 16 else (num : Int)

/-- `DeviceModel.get_readBytes`: the 8-byte read request
`[devid, 0x03, regAddr_hi, regAddr_lo, regCount_hi, regCount_lo, crc_hi, crc_lo]`,
with the checksum computed over the first 6 bytes. -/
def get_readBytes (devid regAddr regCount : Nat) : List Nat :=
  let tempBytes := [devid, 0x03, regAddr >>> 8, regAddr &&& 0xff,
                    regCount >>> 8, regCount &&& 0xff]
  let tempCrc := get_crc tempBytes 6
  tempBytes ++ [tempCrc >>> 8, tempCrc &&& 0xff]

/-- `DeviceModel.get_writeBytes`: the 8-byte write request
`[devid, 0x06, regAddr_hi, regAddr_lo, sValue_hi, sValue_lo, crc_hi, crc_lo]`,
with the checksum computed over the first 6 bytes. -/
def get_writeBytes (devid regAddr sValue : Nat) : List Nat :=
  let tempBytes := [devid, 0x06, regAddr >>> 8, regAddr &&& 0xff,
                    sValue >>> 8, sValue &&& 0xff]
  let tempCrc := get_crc tempBytes 6
  tempBytes ++ [tempCrc >>> 8, tempCrc &&& 0xff]

/-- Round a rational to the nearest integer, ties to even (the rounding mode
of Python's builtin `round`). -/
def roundHalfEven (q : ℚ) : ℤ :=
  let n := ⌊q⌋
  let f := q - n
  if f < 1 / 2 then n
  else if 1 / 2 < f then n + 1
  else if n % 2 = 0 then n else n + 1

/-- Python's `round(q, 3)`: round to three decimal places (ties to even),
modelled exactly on rationals. -/
def round3 (q : ℚ) : ℚ := (roundHalfEven (q * 1000) : ℚ) / 1000

/-- The signed big-endian 16-bit field `getSignInt16(tb[i] << 8 | tb[i+1])`
read from buffer `tb` at byte offset `i`. -/
def field16 (tb : List Nat) (i : Nat) : Int :=
  getSignInt16 ((tb.getD i 0) <<< 8 ||| tb.getD (i + 1) 0)

/-- `DeviceModel.deviceData`: per-device register store, a mapping from
device address and register key to the last decoded value. -/
def Store : Type := Nat → String → Option ℚ

/-- `DeviceModel.set`: store `value` under `deviceData[ADDR][key]`. -/
def Store.set (dd : Store) (ADDR : Nat) (key : String) (value : ℚ) : Store :=
  fun a k => if a = ADDR ∧ k = key then some value else dd a k

/-- The mutable state of one `DeviceModel` instance that the data-analysis
path touches: the accumulation buffer `TempBytes`, the pending read context
`statReg`, the register store `deviceData`, and (for specification purposes)
the list of frames emitted so far, each recorded as the full buffer contents
at the moment the checksum check succeeded. -/
structure AsmState where
  tempBytes : List Nat
  statReg : Option Int
  deviceData : Store
  emitted : List (List Nat)

/-- One iteration of the generic-register decode loop of
`DeviceModel.processData` (the `else` branch): decode field `i`, store it
under the key `str(statReg)`, and increment `statReg`. -/
def genericStep (ADDR : Nat) (tb : List Nat) (p : Int × Store) (i : Nat) :
    Int × Store :=
  let value : ℚ := (field16 tb (2 * i + 3) : ℚ) / 32768
  (p.1 + 1, p.2.set ADDR (toString p.1) (round3 value))

/-- `DeviceModel.processData`: decode the completed frame held in
`st.tempBytes`.  `length` is the frame's length byte (`TempBytes[2]`).  If it
is 24, twelve fixed IMU quantities are decoded and stored; otherwise, if
`statReg` is set, `length / 2` generic register values are decoded and stored
under the keys `str(statReg), str(statReg+1), ...`.  The buffer is cleared in
every case.  (The Python code also invokes `callback_method` on the IMU path;
the callback performs no state change modelled here.) -/
def processData (st : AsmState) (length : Nat) : AsmState :=
  let tb := st.tempBytes
  let ADDR := tb.getD 0 0
  if length = 24 then
    let dd := st.deviceData
    let dd := dd.set ADDR "AccX" (round3 ((field16 tb 3 : ℚ) / 32768 * 16))
    let dd := dd.set ADDR "AccY" (round3 ((field16 tb 5 : ℚ) / 32768 * 16))
    let dd := dd.set ADDR "AccZ" (round3 ((field16 tb 7 : ℚ) / 32768 * 16))
    let dd := dd.set ADDR "AsX" (round3 ((field16 tb 9 : ℚ) / 32768 * 2000))
    let dd := dd.set ADDR "AsY" (round3 ((field16 tb 11 : ℚ) / 32768 * 2000))
    let dd := dd.set ADDR "AsZ" (round3 ((field16 tb 13 : ℚ) / 32768 * 2000))
    let dd := dd.set ADDR "HX" (round3 ((field16 tb 15 : ℚ) * 13 / 1000))
    let dd := dd.set ADDR "HY" (round3 ((field16 tb 17 : ℚ) * 13 / 1000))
    let dd := dd.set ADDR "HZ" (round3 ((field16 tb 19 : ℚ) * 13 / 1000))
    let dd := dd.set ADDR "AngX" (round3 ((field16 tb 21 : ℚ) / 32768 * 180))
    let dd := dd.set ADDR "AngY" (round3 ((field16 tb 23 : ℚ) / 32768 * 180))
    let dd := dd.set ADDR "AngZ" (round3 ((field16 tb 25 : ℚ) / 32768 * 180))
    { st with deviceData := dd, tempBytes := [] }
  else
    match st.statReg with
    | none => { st with tempBytes := [] }
    | some r =>
      let p := (List.range (length / 2)).foldl (genericStep ADDR tb)
        (r, st.deviceData)
      { st with statReg := some p.1, deviceData := p.2, tempBytes := [] }

/-- The checksum check performed by `DeviceModel.onDataReceived` on a
complete buffer `tb`: the CRC over all but the last two bytes, compared
big-endian against the trailing two bytes. -/
def crcOK (tb : List Nat) : Prop :=
  (get_crc tb (tb.length - 2)) >>> 8 = tb.getD (tb.length - 2) 0 ∧
  (get_crc tb (tb.length - 2)) &&& 0xff = tb.getD (tb.length - 1) 0

instance (tb : List Nat) : Decidable (crcOK tb) := by
  unfold crcOK; infer_instance

/-- The body of the `for val in tempdata` loop of
`DeviceModel.onDataReceived`, processing one received byte `val`: append it
to the buffer; if the first buffered byte is not a configured address, drop
the first byte; otherwise, once more than two bytes are buffered, drop the
first byte on a wrong function code, and once the buffer reaches the length
announced by its length byte, either decode it (checksum match) or drop the
first byte (mismatch).  Each of the `del TempBytes[0] / continue` paths of
the Python loop performs exactly one drop and then moves on to the next
received byte. -/
def feedByte (addrLis : List Nat) (st : AsmState) (val : Nat) : AsmState :=
  let tb := st.tempBytes ++ [val]
  if tb.getD 0 0 ∉ addrLis then
    { st with tempBytes := tb.drop 1 }
  else if tb.length > 2 then
    if tb.getD 1 0 ≠ 0x03 then
      { st with tempBytes := tb.drop 1 }
    else
      let tLen := tb.length
      if tLen = tb.getD 2 0 + 5 then
        if crcOK tb then
          processData { st with tempBytes := tb, emitted := st.emitted ++ [tb] }
            (tb.getD 2 0)
        else
          { st with tempBytes := tb.drop 1 }
      else
        { st with tempBytes := tb }
  else
    { st with tempBytes := tb }

/-- `DeviceModel.onDataReceived`: process a received chunk byte by byte. -/
def onDataReceived (addrLis : List Nat) (st : AsmState) (data : List Nat) :
    AsmState :=
  data.foldl (feedByte addrLis) st

/-- Delivering a list of chunks to the assembler in order. -/
def feedChunks (addrLis : List Nat) (st : AsmState) (chunks : List (List Nat)) :
    AsmState :=
  chunks.foldl (onDataReceived addrLis) st

/-- An assembler state with an empty accumulation buffer, no emissions yet,
and arbitrary pending read context and register store. -/
def initState (statReg : Option Int) (dd : Store) : AsmState :=
  { tempBytes := [], statReg := statReg, deviceData := dd, emitted := [] }

/-- A valid response frame for the configured address list: first byte a
configured address, second byte the read function code `0x03`, total length
equal to its length byte plus 5, and a correct trailing checksum. -/
def validFrame (addrLis : List Nat) (F : List Nat) : Prop :=
  F.getD 0 0 ∈ addrLis ∧ F.getD 1 0 = 0x03 ∧
  F.length = F.getD 2 0 + 5 ∧ crcOK F

instance (addrLis : List Nat) (F : List Nat) : Decidable (validFrame addrLis F) := by
  unfold validFrame; infer_instance

/-- An event on the serial line, as performed by `DeviceModel.writeReg`:
either a transmitted byte sequence, a fixed delay (in seconds), or a received
byte sequence (never produced by the write path, which reads nothing back). -/
inductive SerialEvent where
  | send : List Nat → SerialEvent
  | sleep : ℚ → SerialEvent
  | recv : List Nat → SerialEvent

/-- `DeviceModel.unlock`: send a write of the magic value `0xB588` to
register `0x69`. -/
def unlock (ADDR : Nat) : List SerialEvent :=
  [.send (get_writeBytes ADDR 0x69 0xb588)]

/-- `DeviceModel.save`: send a write of `0x0000` to register `0x00`. -/
def save (ADDR : Nat) : List SerialEvent :=
  [.send (get_writeBytes ADDR 0x00 0x0000)]

/-- `DeviceModel.writeReg`: unlock, sleep 100 ms, send the write request,
sleep 100 ms, save — as the ordered trace of serial events it performs. -/
def writeReg (ADDR regAddr sValue : Nat) : List SerialEvent :=
  unlock ADDR ++ [.sleep (1 / 10)] ++
  [.send (get_writeBytes ADDR regAddr sValue)] ++ [.sleep (1 / 10)] ++
  save ADDR

/-- The acceleration triple of a decoded vibration message, discarding the
(unverified) CRC component. -/
def vibrationAccel (t : ℚ × ℚ × ℚ × Nat) : ℚ × ℚ × ℚ := (t.1, t.2.1, t.2.2.1)

/-- `main.decode_vibration_data`: reject inputs that are not 29 bytes long;
otherwise decode the three signed big-endian 16-bit acceleration fields at
offsets 3, 5 and 7, scale each by `/ 32768 * 16`, and return them together
with the trailing 16-bit value read as the CRC (which is never verified). -/
def decode_vibration_data (data : List Nat) : Option (ℚ × ℚ × ℚ × Nat) :=
  if data.length ≠ 29 then none
  else
    let AX := getSignInt16 ((data.getD 3 0) <<< 8 ||| data.getD 4 0)
    let AY := getSignInt16 ((data.getD 5 0) <<< 8 ||| data.getD 6 0)
    let AZ := getSignInt16 ((data.getD 7 0) <<< 8 ||| data.getD 8 0)
    let AX_corrected : ℚ := (AX : ℚ) / 32768 * 16
    let AY_corrected : ℚ := (AY : ℚ) / 32768 * 16
    let AZ_corrected : ℚ := (AZ : ℚ) / 32768 * 16
    let CRC := (data.getD 27 0) <<< 8 ||| data.getD 28 0
    some (AX_corrected, AY_corrected, AZ_corrected, CRC)

end WTVB02

open WTVB02

/-- The twelve register keys written by the fixed IMU decode path. -/
def imuKeys : List String :=
  ["AccX", "AccY", "AccZ", "AsX", "AsY", "AsZ",
   "HX", "HY", "HZ", "AngX", "AngY", "AngZ"]

/-- A concrete 7-byte valid response frame for device address `0x50` with a
2-byte payload of zeros and its correct CRC `0x4588`. -/
def frame7 : List Nat := [0x50, 0x03, 0x02, 0x00, 0x00, 0x45, 0x88]

/-- A concrete valid 29-byte IMU response frame for device address `0x50`:
length byte 24, all-zero payload, correct CRC `0x92E6`. -/
def imuState : AsmState :=
  { tempBytes := [0x50, 0x03, 0x18] ++ List.replicate 24 0 ++ [0x92, 0xE6],
    statReg := none, deviceData := fun _ _ => none, emitted := [] }

/-- The decimal digit characters of `n`, most significant first: the digit
list that `Nat.toDigitsCore` builds for base 10. -/
def decDigits (n : Nat) : List Char :=
  if h : n < 10 then [Nat.digitChar n]
  else decDigits (n / 10) ++ [Nat.digitChar (n % 10)]
decreasing_by exact Nat.div_lt_self (by omega) (by omega)

/-- The numeric value of a decimal digit character. -/
def digitVal (c : Char) : Nat := c.toNat - 48

/-- A concrete valid 9-byte generic response frame for device address `0x50`
(payload `00 01 00 02`, CRC `0x6AF7`), with pending read context 10. -/
def genState : AsmState :=
  { tempBytes := [0x50, 0x03, 0x04, 0x00, 0x01, 0x00, 0x02, 0x6A, 0xF7],
    statReg := some 10, deviceData := fun _ _ => none, emitted := [] }

/-- Both CRC accumulators are bytes. -/
def crcBounded (s : Nat × Nat) : Prop := s.1 < 256 ∧ s.2 < 256

/-- The 9-byte valid frame used in the C3 counterexample.  Its payload bytes
`0x50 0x03 0xFF` cause the assembler, after the corrupted copy's checksum
failure and one-byte drop, to resynchronize on a fake frame header whose
length byte `0xFF` announces 260 bytes, so the true frame is swallowed and
never emitted. -/
def c3F : List Nat := [0x50, 0x03, 0x04, 0x50, 0x03, 0xFF, 0x00, 0x1A, 0x06]

/-- C1: the checksum of `[0x50, 0x03, 0x00, 0x34, 0x00, 0x0C]` computed by
`get_crc` is `0x0980`, and the read-request builder applied to device address
`0x50`, register address `0x34` and register count `0x0C` returns exactly
`[0x50, 0x03, 0x00, 0x34, 0x00, 0x0C, 0x09, 0x80]`: the 6-byte header
followed by the checksum high byte and then the checksum low byte. -/
theorem c1_crc_and_read_request :
    get_crc [0x50, 0x03, 0x00, 0x34, 0x00, 0x0C] 6 = 0x0980 ∧
    get_readBytes 0x50 0x34 0x0C =
      [0x50, 0x03, 0x00, 0x34, 0x00, 0x0C, 0x09, 0x80] := by
  constructor
  · decide
  · decide

/-- The buffer is cleared by every branch of `processData`. -/
lemma processData_tempBytes (st : AsmState) (l : Nat) :
    (processData st l).tempBytes = [] := by
  unfold processData
  split
  · rfl
  · split <;> rfl

/-- `processData` never touches the emission log. -/
lemma processData_emitted (st : AsmState) (l : Nat) :
    (processData st l).emitted = st.emitted := by
  unfold processData
  split
  · rfl
  · split <;> rfl

/-- Chunked delivery coincides with byte-at-a-time delivery. -/
lemma feedChunks_eq_join (addrLis : List Nat) (chunks : List (List Nat))
    (st : AsmState) :
    feedChunks addrLis st chunks =
      (chunks.flatten).foldl (feedByte addrLis) st := by
  induction chunks generalizing st with
  | nil => rfl
  | cons c cs ih =>
    show feedChunks addrLis (onDataReceived addrLis st c) cs = _
    rw [ih]
    simp [onDataReceived, List.foldl_append]

/-- C5: for every byte sequence and every partition of it into consecutive
chunks, delivering the chunks in order to the assembler yields the same final
state — in particular the same sequence of emitted frames, the same final
accumulation-buffer contents, and the same register store — as delivering
the bytes one at a time. -/
theorem c5_chunk_independence (addrLis : List Nat) (st : AsmState)
    (chunks : List (List Nat)) :
    feedChunks addrLis st chunks = (chunks.flatten).foldl (feedByte addrLis) st ∧
    (feedChunks addrLis st chunks).emitted =
      ((chunks.flatten).foldl (feedByte addrLis) st).emitted ∧
    (feedChunks addrLis st chunks).tempBytes =
      ((chunks.flatten).foldl (feedByte addrLis) st).tempBytes ∧
    (feedChunks addrLis st chunks).deviceData =
      ((chunks.flatten).foldl (feedByte addrLis) st).deviceData := by
  have h := feedChunks_eq_join addrLis chunks st
  exact ⟨h, by rw [h], by rw [h], by rw [h]⟩

/-- C8: a single register write performs exactly the ordered event sequence
unlock (write `0xB588` to register `0x69`), 100 ms sleep, the actual write,
100 ms sleep, save (write `0x0000` to register `0x00`); all three transmitted
frames are 8 bytes long with function code `0x06`, and no receive happens
anywhere in the sequence. -/
theorem c8_write_reg_sequence (ADDR regAddr sValue : Nat) :
    writeReg ADDR regAddr sValue =
      [SerialEvent.send (get_writeBytes ADDR 0x69 0xb588),
       SerialEvent.sleep (1 / 10),
       SerialEvent.send (get_writeBytes ADDR regAddr sValue),
       SerialEvent.sleep (1 / 10),
       SerialEvent.send (get_writeBytes ADDR 0x00 0x0000)] ∧
    (get_writeBytes ADDR 0x69 0xb588).length = 8 ∧
    (get_writeBytes ADDR regAddr sValue).length = 8 ∧
    (get_writeBytes ADDR 0x00 0x0000).length = 8 ∧
    (get_writeBytes ADDR 0x69 0xb588).getD 1 0 = 0x06 ∧
    (get_writeBytes ADDR regAddr sValue).getD 1 0 = 0x06 ∧
    (get_writeBytes ADDR 0x00 0x0000).getD 1 0 = 0x06 ∧
    ∀ bs, SerialEvent.recv bs ∉ writeReg ADDR regAddr sValue := by
  refine ⟨rfl, rfl, rfl, rfl, rfl, rfl, rfl, ?_⟩
  intro bs h
  simp [writeReg, unlock, save] at h

/-- C9: a checksum-validated frame whose length byte is not 24 decodes to
nothing when the pending read context is unset: the register store is
unchanged and the context remains unset. -/
theorem c9_no_context_drops_frame (st : AsmState) (L : Nat)
    (h1 : st.statReg = none) (h2 : L ≠ 24) :
    (processData st L).deviceData = st.deviceData ∧
    (processData st L).statReg = none := by
  unfold processData
  rw [if_neg h2, h1]
  exact ⟨rfl, rfl⟩

theorem c9_witness :
    (initState none (fun _ _ => none)).statReg = none ∧ (4 : Nat) ≠ 24 ∧
    ((processData (initState none (fun _ _ => none)) 4).deviceData =
        (initState none (fun _ _ => none)).deviceData ∧
      (processData (initState none (fun _ _ => none)) 4).statReg = none) :=
  ⟨rfl, by decide, c9_no_context_drops_frame (initState none (fun _ _ => none)) 4 rfl (by decide)⟩

/-- C10: the vibration decoder of `main.py` returns `none` exactly when its
input is not 29 bytes long; on every 29-byte input it returns the three
scaled acceleration values (signed big-endian 16-bit fields at frame offsets
3, 5, 7, each divided by 32768 and multiplied by 16) together with the
trailing 16-bit value read as the CRC; and it never verifies that CRC: any
two 29-byte inputs with the same bytes at offsets 3..8 decode to the same
acceleration triple, whatever their trailing checksums. -/
theorem c10_decode_vibration_data :
    (∀ data : List Nat, (decode_vibration_data data = none ↔ data.length ≠ 29)) ∧
    (∀ data : List Nat, data.length = 29 →
      decode_vibration_data data =
        some ((getSignInt16 ((data.getD 3 0) <<< 8 ||| data.getD 4 0) : ℚ) / 32768 * 16,
              (getSignInt16 ((data.getD 5 0) <<< 8 ||| data.getD 6 0) : ℚ) / 32768 * 16,
              (getSignInt16 ((data.getD 7 0) <<< 8 ||| data.getD 8 0) : ℚ) / 32768 * 16,
              (data.getD 27 0) <<< 8 ||| data.getD 28 0)) ∧
    (∀ d1 d2 : List Nat, d1.length = 29 → d2.length = 29 →
      (∀ i, 3 ≤ i → i ≤ 8 → d1.getD i 0 = d2.getD i 0) →
      Option.map vibrationAccel (decode_vibration_data d1) =
        Option.map vibrationAccel (decode_vibration_data d2)) := by
  refine ⟨?_, ?_, ?_⟩
  · intro data
    by_cases h : data.length = 29 <;> simp [decode_vibration_data, h]
  · intro data h
    simp [decode_vibration_data, h]
  · intro d1 d2 h1 h2 hag
    simp only [decode_vibration_data, h1, h2]
    rw [hag 3 (by omega) (by omega), hag 4 (by omega) (by omega),
        hag 5 (by omega) (by omega), hag 6 (by omega) (by omega),
        hag 7 (by omega) (by omega), hag 8 (by omega) (by omega)]
    simp [vibrationAccel]

/-- C2 counterexample: with configured addresses `[0x50]`, feeding the bytes
`0x50, 0x99, 0x01` one at a time from an empty buffer leaves — after the
processing of the single fed byte `0x01` has finished — the nonempty buffer
`[0x99, 0x01]`, whose first byte is not a configured address: the leading
drop is not repeated within the processing of one byte. -/
theorem c2_counterexample :
    (onDataReceived [0x50] (initState none (fun _ _ => none))
        [0x50, 0x99, 0x01]).tempBytes = [0x99, 0x01] ∧
    ((onDataReceived [0x50] (initState none (fun _ _ => none))
        [0x50, 0x99, 0x01]).tempBytes ≠ []) ∧
    (onDataReceived [0x50] (initState none (fun _ _ => none))
        [0x50, 0x99, 0x01]).tempBytes.getD 0 0 ∉ [(0x50 : Nat)] := by
  refine ⟨by decide, by decide, by decide⟩

/-- C2 (amended): after the frame assembler finishes processing a single fed
byte, the accumulation buffer is empty, or its first byte is a configured
address, or exactly one leading byte has been dropped from the appended
buffer — the leading-byte drop happens at most once per fed byte, and
resynchronization completes only over subsequent fed bytes. -/
theorem c2_single_drop_per_byte (addrLis : List Nat) (st : AsmState) (b : Nat) :
    (feedByte addrLis st b).tempBytes = [] ∨
    ((feedByte addrLis st b).tempBytes = st.tempBytes ++ [b] ∧
      (st.tempBytes ++ [b]).getD 0 0 ∈ addrLis) ∨
    (feedByte addrLis st b).tempBytes = (st.tempBytes ++ [b]).drop 1 := by
  unfold feedByte
  dsimp only
  split
  · right; right; rfl
  next h0 =>
    split
    · split
      next => right; right; rfl
      next =>
        split
        next =>
          split
          next => left; exact processData_tempBytes _ _
          next => right; right; rfl
        next => right; left; exact ⟨rfl, not_not.mp h0⟩
    · right; left; exact ⟨rfl, not_not.mp h0⟩

/-- C6: decoding a checksum-validated frame whose length byte is 24 writes
exactly the twelve IMU keys for the frame's address, each computed from one
of the twelve consecutive signed big-endian 16-bit fields starting at the
first payload byte (frame offset 3) with the documented scale factors
(`v/32768*16`, `v/32768*2000`, `v*13/1000`, `v/32768*180`), each rounded to
three decimal places; every other store entry is unchanged; and a raw field
value of `0x4000` in an acceleration slot yields `8` before rounding. -/
theorem c6_imu_decode (addrLis : List Nat) (st : AsmState)
    (hv : validFrame addrLis st.tempBytes)
    (h24 : st.tempBytes.getD 2 0 = 24) :
    ((processData st 24).deviceData (st.tempBytes.getD 0 0) "AccX" =
        some (round3 ((field16 st.tempBytes 3 : ℚ) / 32768 * 16)) ∧
      (processData st 24).deviceData (st.tempBytes.getD 0 0) "AccY" =
        some (round3 ((field16 st.tempBytes 5 : ℚ) / 32768 * 16)) ∧
      (processData st 24).deviceData (st.tempBytes.getD 0 0) "AccZ" =
        some (round3 ((field16 st.tempBytes 7 : ℚ) / 32768 * 16)) ∧
      (processData st 24).deviceData (st.tempBytes.getD 0 0) "AsX" =
        some (round3 ((field16 st.tempBytes 9 : ℚ) / 32768 * 2000)) ∧
      (processData st 24).deviceData (st.tempBytes.getD 0 0) "AsY" =
        some (round3 ((field16 st.tempBytes 11 : ℚ) / 32768 * 2000)) ∧
      (processData st 24).deviceData (st.tempBytes.getD 0 0) "AsZ" =
        some (round3 ((field16 st.tempBytes 13 : ℚ) / 32768 * 2000)) ∧
      (processData st 24).deviceData (st.tempBytes.getD 0 0) "HX" =
        some (round3 ((field16 st.tempBytes 15 : ℚ) * 13 / 1000)) ∧
      (processData st 24).deviceData (st.tempBytes.getD 0 0) "HY" =
        some (round3 ((field16 st.tempBytes 17 : ℚ) * 13 / 1000)) ∧
      (processData st 24).deviceData (st.tempBytes.getD 0 0) "HZ" =
        some (round3 ((field16 st.tempBytes 19 : ℚ) * 13 / 1000)) ∧
      (processData st 24).deviceData (st.tempBytes.getD 0 0) "AngX" =
        some (round3 ((field16 st.tempBytes 21 : ℚ) / 32768 * 180)) ∧
      (processData st 24).deviceData (st.tempBytes.getD 0 0) "AngY" =
        some (round3 ((field16 st.tempBytes 23 : ℚ) / 32768 * 180)) ∧
      (processData st 24).deviceData (st.tempBytes.getD 0 0) "AngZ" =
        some (round3 ((field16 st.tempBytes 25 : ℚ) / 32768 * 180))) ∧
    (∀ a k, ¬(a = st.tempBytes.getD 0 0 ∧ k ∈ imuKeys) →
      (processData st 24).deviceData a k = st.deviceData a k) ∧
    (getSignInt16 0x4000 : ℚ) / 32768 * 16 = 8 := by
  refine ⟨?_, ?_, ?_⟩
  · simp [processData, Store.set]
  · intro a k hnot
    by_cases ha : a = st.tempBytes.getD 0 0
    · have hk : k ∉ imuKeys := fun h => hnot ⟨ha, h⟩
      simp only [imuKeys, List.mem_cons, List.not_mem_nil, or_false,
        not_or] at hk
      obtain ⟨k1, k2, k3, k4, k5, k6, k7, k8, k9, k10, k11, k12⟩ := hk
      simp [processData, Store.set, ha, k1, k2, k3, k4, k5, k6, k7, k8, k9,
        k10, k11, k12]
    · have ha' : a ≠ st.tempBytes[0]?.getD 0 := by
        rw [← List.getD_eq_getElem?_getD]; exact ha
      simp [processData, Store.set, ha']
  · norm_num [getSignInt16]

/-- `take (k+1)` appends the `k`-th element to `take k`. -/
lemma take_succ_getD (F : List Nat) (k : Nat) (hklt : k < F.length) :
    F.take (k + 1) = F.take k ++ [F.getD k 0] := by
  rw [List.take_succ, List.getElem?_eq_getElem hklt]
  rw [List.getD_eq_getElem _ _ hklt]
  rfl

/-- Reading inside a `take` at an in-range index. -/
lemma getD_take_lt (l : List Nat) (m i d : Nat) (h : i < m) :
    (l.take m).getD i d = l.getD i d := by
  simp [List.getD_eq_getElem?_getD, List.getElem?_take, h]

/-- Splitting off the last byte of a frame. -/
lemma take_last_split (F : List Nat) (h : 0 < F.length) :
    F = F.take (F.length - 1) ++ [F.getD (F.length - 1) 0] := by
  have h1 : F.length - 1 + 1 = F.length := by omega
  have h2 : F.length - 1 < F.length := by omega
  conv_lhs => rw [← List.take_length F, ← h1]
  exact take_succ_getD F (F.length - 1) h2

/-- A byte fed to an empty buffer whose value is not a configured address is
dropped immediately, leaving the state unchanged. -/
lemma feedByte_empty_garbage (addrLis : List Nat) (st : AsmState) (b : Nat)
    (h0 : st.tempBytes = []) (hb : b ∉ addrLis) :
    feedByte addrLis st b = st := by
  cases st with
  | mk t s d e =>
    simp only at h0
    subst h0
    unfold feedByte
    simp [hb]

/-- A run of garbage bytes (none a configured address) fed to an assembler
with an empty buffer leaves the state unchanged. -/
lemma onDataReceived_garbage (addrLis : List Nat) (st : AsmState)
    (g : List Nat) (h0 : st.tempBytes = []) (hg : ∀ b ∈ g, b ∉ addrLis) :
    onDataReceived addrLis st g = st := by
  induction g with
  | nil => rfl
  | cons b bs ih =>
    show onDataReceived addrLis (feedByte addrLis st b) bs = st
    rw [feedByte_empty_garbage addrLis st b h0 (hg b (by simp))]
    exact ih (fun x hx => hg x (by simp [hx]))

/-- Feeding the first `k` bytes of a well-headed frame (valid address,
function code `0x03`, length byte consistent with the total length) to an
assembler with an empty buffer accumulates them without any drop or
emission, for every `k` strictly below the frame length. -/
lemma feed_prefix_accum (addrLis : List Nat) (F : List Nat)
    (h0 : F.getD 0 0 ∈ addrLis) (h1 : F.getD 1 0 = 0x03)
    (hn : F.length = F.getD 2 0 + 5) :
    ∀ k, k ≤ F.length - 1 → ∀ st : AsmState, st.tempBytes = [] →
      onDataReceived addrLis st (F.take k) = { st with tempBytes := F.take k } := by
  intro k
  induction k with
  | zero =>
    intro _ st h0'
    cases st with
    | mk t s d e => simp only at h0'; subst h0'; rfl
  | succ k ih =>
    intro hk st hst
    have hlen5 : 5 ≤ F.length := by omega
    have hklt : k < F.length := by omega
    have htake := take_succ_getD F k hklt
    have hfold : onDataReceived addrLis st (F.take (k + 1)) =
        feedByte addrLis (onDataReceived addrLis st (F.take k)) (F.getD k 0) := by
      rw [htake]
      simp [onDataReceived, List.foldl_append]
    rw [hfold, ih (by omega) st hst]
    unfold feedByte
    dsimp only
    rw [← htake]
    have hlt : (F.take (k + 1)).length = k + 1 := by
      rw [List.length_take]
      omega
    have hhead : (F.take (k + 1)).getD 0 0 ∈ addrLis := by
      rw [getD_take_lt F (k + 1) 0 0 (by omega)]
      exact h0
    rw [if_neg (not_not_intro hhead)]
    by_cases h2 : (F.take (k + 1)).length > 2
    · rw [if_pos h2]
      have hfc : (F.take (k + 1)).getD 1 0 = 0x03 := by
        rw [getD_take_lt F (k + 1) 1 0 (by omega)]
        exact h1
      rw [if_neg (not_not_intro hfc)]
      have hne : ¬((F.take (k + 1)).length = (F.take (k + 1)).getD 2 0 + 5) := by
        rw [hlt, getD_take_lt F (k + 1) 2 0 (by rw [hlt] at h2; omega)]
        omega
      rw [if_neg hne]
    · rw [if_neg h2]

/-- Feeding a complete valid frame to an assembler with an empty buffer
accumulates every byte and, on the last byte, passes the checksum check and
hands the full frame to `processData`, recording the emission. -/
lemma feed_valid_frame (addrLis : List Nat) (F : List Nat)
    (hv : validFrame addrLis F) (st : AsmState) (hst : st.tempBytes = []) :
    onDataReceived addrLis st F =
      processData { st with tempBytes := F, emitted := st.emitted ++ [F] }
        (F.getD 2 0) := by
  obtain ⟨hm, hf, hn, hcrc⟩ := hv
  have hlen5 : 5 ≤ F.length := by omega
  have hsplit := take_last_split F (by omega)
  have hfold : onDataReceived addrLis st F =
      feedByte addrLis (onDataReceived addrLis st (F.take (F.length - 1)))
        (F.getD (F.length - 1) 0) := by
    conv_lhs => rw [hsplit]
    simp [onDataReceived, List.foldl_append]
  rw [hfold, feed_prefix_accum addrLis F hm hf hn (F.length - 1) le_rfl st hst]
  unfold feedByte
  dsimp only
  rw [← hsplit]
  rw [if_neg (not_not_intro hm), if_pos (by omega : F.length > 2),
    if_neg (not_not_intro hf), if_pos hn, if_pos hcrc]

/-- C4: feeding 1 to 5 garbage bytes (none of them a configured device
address) followed by the bytes of a valid response frame, to an assembler
started with an empty buffer, emits exactly one frame, and that frame is
identical to the one emitted when the valid frame's bytes are fed alone. -/
theorem c4_garbage_then_valid (addrLis g F : List Nat) (sr : Option Int)
    (dd : Store) (hg1 : 1 ≤ g.length) (hg5 : g.length ≤ 5)
    (hg : ∀ b ∈ g, b ∉ addrLis) (hv : validFrame addrLis F) :
    (onDataReceived addrLis (initState sr dd) (g ++ F)).emitted = [F] ∧
    (onDataReceived addrLis (initState sr dd) F).emitted = [F] := by
  have hbase : (onDataReceived addrLis (initState sr dd) F).emitted = [F] := by
    rw [feed_valid_frame addrLis F hv (initState sr dd) rfl, processData_emitted]
    rfl
  refine ⟨?_, hbase⟩
  have hsplit : onDataReceived addrLis (initState sr dd) (g ++ F) =
      onDataReceived addrLis (onDataReceived addrLis (initState sr dd) g) F := by
    simp [onDataReceived, List.foldl_append]
  rw [hsplit, onDataReceived_garbage addrLis (initState sr dd) g rfl hg]
  exact hbase

theorem c4_witness :
    (1 ≤ ([0x01] : List Nat).length ∧ ([0x01] : List Nat).length ≤ 5 ∧
      (∀ b ∈ ([0x01] : List Nat), b ∉ ([0x50] : List Nat)) ∧
      validFrame [0x50] frame7) ∧
    (onDataReceived [0x50] (initState none (fun _ _ => none))
        ([0x01] ++ frame7)).emitted = [frame7] ∧
    (onDataReceived [0x50] (initState none (fun _ _ => none))
        frame7).emitted = [frame7] :=
  ⟨⟨by decide, by decide, by decide, by decide⟩,
    c4_garbage_then_valid [0x50] [0x01] frame7 none (fun _ _ => none)
      (by decide) (by decide) (by decide) (by decide)⟩

theorem c6_witness :
    (validFrame [0x50] imuState.tempBytes ∧ imuState.tempBytes.getD 2 0 = 24) ∧
    (processData imuState 24).deviceData (imuState.tempBytes.getD 0 0) "AccX" =
      some (round3 ((field16 imuState.tempBytes 3 : ℚ) / 32768 * 16)) :=
  ⟨⟨by decide, by decide⟩,
    (c6_imu_decode [0x50] imuState (by decide) (by decide)).1.1⟩

theorem c10_witness :
    (List.replicate 29 (0 : Nat)).length = 29 ∧
    decode_vibration_data (List.replicate 29 (0 : Nat)) = some (0, 0, 0, 0) ∧
    Option.map vibrationAccel (decode_vibration_data (List.replicate 29 (0 : Nat))) =
      Option.map vibrationAccel
        (decode_vibration_data (List.replicate 27 (0 : Nat) ++ [0xAB, 0xCD])) := by
  refine ⟨by decide, ?_, ?_⟩
  · rw [c10_decode_vibration_data.2.1 (List.replicate 29 0) (by decide)]
    norm_num [List.getD_eq_getElem?_getD, List.getElem?_replicate, getSignInt16]
  · exact c10_decode_vibration_data.2.2 _ _ (by decide) (by decide)
      (by intro i h3 h8; interval_cases i <;> rfl)

lemma toDigitsCore_eq_decDigits :
    ∀ fuel n ds, n < fuel →
      Nat.toDigitsCore 10 fuel n ds = decDigits n ++ ds := by
  intro fuel
  induction fuel with
  | zero => intro n ds h; omega
  | succ fuel ih =>
    intro n ds h
    show (if n / 10 = 0 then Nat.digitChar (n % 10) :: ds
      else Nat.toDigitsCore 10 fuel (n / 10) (Nat.digitChar (n % 10) :: ds)) =
      decDigits n ++ ds
    by_cases h10 : n / 10 = 0
    · have hn10 : n < 10 := (Nat.div_eq_zero_iff (by omega)).mp h10
      rw [if_pos h10, decDigits, dif_pos hn10, Nat.mod_eq_of_lt hn10]
      rfl
    · have hge : ¬n < 10 := by
        intro hlt
        exact h10 ((Nat.div_eq_zero_iff (by omega)).mpr hlt)
      have hpos : 0 < n := by omega
      have hlt : n / 10 < fuel := by
        have := Nat.div_lt_self hpos (by omega : 1 < 10)
        omega
      rw [if_neg h10, ih (n / 10) (Nat.digitChar (n % 10) :: ds) hlt]
      conv_rhs => rw [decDigits]
      rw [dif_neg hge, List.append_assoc]
      rfl

lemma toDigits_eq_decDigits (n : Nat) : Nat.toDigits 10 n = decDigits n := by
  rw [Nat.toDigits, toDigitsCore_eq_decDigits (n + 1) n [] (by omega)]
  simp

lemma digitVal_digitChar (d : Nat) (h : d < 10) :
    digitVal (Nat.digitChar d) = d := by
  interval_cases d <;> decide

lemma decDigits_foldl (n : Nat) : ∀ a : Nat,
    (decDigits n).foldl (fun acc c => 10 * acc + digitVal c) a =
      a * 10 ^ (decDigits n).length + n := by
  induction n using Nat.strong_induction_on with
  | _ n ih =>
    intro a
    by_cases h : n < 10
    · rw [decDigits, dif_pos h]
      simp [digitVal_digitChar n h]
      ring
    · rw [decDigits, dif_neg h, List.foldl_append,
        ih (n / 10) (Nat.div_lt_self (by omega) (by omega)) a]
      simp only [List.foldl_cons, List.foldl_nil, List.length_append,
        List.length_singleton]
      rw [digitVal_digitChar (n % 10) (Nat.mod_lt n (by omega))]
      calc 10 * (a * 10 ^ (decDigits (n / 10)).length + n / 10) + n % 10
          = a * (10 ^ (decDigits (n / 10)).length * 10) +
              (10 * (n / 10) + n % 10) := by ring
        _ = a * 10 ^ ((decDigits (n / 10)).length + 1) + n := by
              rw [pow_succ, Nat.div_add_mod]

lemma decDigits_inj {m n : Nat} (h : decDigits m = decDigits n) : m = n := by
  have h1 := decDigits_foldl m 0
  have h2 := decDigits_foldl n 0
  rw [h] at h1
  simp only [Nat.zero_mul, Nat.zero_add] at h1 h2
  omega

lemma repr_data (m : Nat) : (Nat.repr m).data = decDigits m := by
  show Nat.toDigits 10 m = decDigits m
  exact toDigits_eq_decDigits m

lemma nat_repr_inj {m n : Nat} (h : Nat.repr m = Nat.repr n) : m = n := by
  apply decDigits_inj
  rw [← repr_data, ← repr_data, h]

lemma digitChar_ne_dash (d : Nat) : Nat.digitChar d ≠ '-' := by
  by_cases h : d < 16
  · interval_cases d <;> decide
  · have h16 : Nat.digitChar d = '*' := by
      unfold Nat.digitChar
      rw [if_neg (by omega : ¬d = 0), if_neg (by omega : ¬d = 1),
        if_neg (by omega : ¬d = 2), if_neg (by omega : ¬d = 3),
        if_neg (by omega : ¬d = 4), if_neg (by omega : ¬d = 5),
        if_neg (by omega : ¬d = 6), if_neg (by omega : ¬d = 7),
        if_neg (by omega : ¬d = 8), if_neg (by omega : ¬d = 9),
        if_neg (by omega : ¬d = 10), if_neg (by omega : ¬d = 11),
        if_neg (by omega : ¬d = 12), if_neg (by omega : ¬d = 13),
        if_neg (by omega : ¬d = 14), if_neg (by omega : ¬d = 15)]
    rw [h16]; decide

lemma dash_not_mem_decDigits (n : Nat) : '-' ∉ decDigits n := by
  induction n using Nat.strong_induction_on with
  | _ n ih =>
    by_cases h : n < 10
    · rw [decDigits, dif_pos h]
      intro hm
      simp only [List.mem_singleton] at hm
      exact digitChar_ne_dash n hm.symm
    · rw [decDigits, dif_neg h]
      intro hm
      rcases List.mem_append.mp hm with h1 | h2
      · exact ih (n / 10) (Nat.div_lt_self (by omega) (by omega)) h1
      · simp only [List.mem_singleton] at h2
        exact digitChar_ne_dash (n % 10) h2.symm

/-- `toString` on integers (as used for the register keys `str(statReg)`) is
injective. -/
lemma intToString_inj : Function.Injective (toString : ℤ → String) := by
  intro a b h
  cases a with
  | ofNat m =>
    cases b with
    | ofNat n =>
      have h' : Nat.repr m = Nat.repr n := h
      exact congrArg Int.ofNat (nat_repr_inj h')
    | negSucc n =>
      exfalso
      have h' : Nat.repr m = "-" ++ Nat.repr (n + 1) := h
      have hd := congrArg String.data h'
      rw [String.data_append, repr_data,
        show ("-" : String).data = ['-'] from rfl] at hd
      exact dash_not_mem_decDigits m (hd ▸ List.mem_cons_self '-' _)
  | negSucc m =>
    cases b with
    | ofNat n =>
      exfalso
      have h' : "-" ++ Nat.repr (m + 1) = Nat.repr n := h
      have hd := congrArg String.data h'.symm
      rw [String.data_append, repr_data,
        show ("-" : String).data = ['-'] from rfl] at hd
      exact dash_not_mem_decDigits n (hd ▸ List.mem_cons_self '-' _)
    | negSucc n =>
      have h' : "-" ++ Nat.repr (m + 1) = "-" ++ Nat.repr (n + 1) := h
      have hd := congrArg String.data h'
      rw [String.data_append, String.data_append] at hd
      have hd' : (Nat.repr (m + 1)).data = (Nat.repr (n + 1)).data :=
        List.append_cancel_left hd
      have hmn := nat_repr_inj (String.ext hd')
      have : m = n := by omega
      exact congrArg Int.negSucc this

/-- The generic decode loop advances the pending read context by one per
decoded field. -/
lemma genericFold_fst (ADDR : Nat) (tb : List Nat) (m : Nat) (r : Int)
    (dd : Store) :
    ((List.range m).foldl (genericStep ADDR tb) (r, dd)).1 = r + m := by
  induction m with
  | zero => simp
  | succ m ih =>
    rw [List.range_succ, List.foldl_append]
    simp only [List.foldl_cons, List.foldl_nil]
    show ((List.range m).foldl (genericStep ADDR tb) (r, dd)).1 + 1 = _
    rw [ih]
    push_cast
    ring

/-- Each field decoded by the generic loop is stored under the key obtained
from the context value at its own iteration. -/
lemma genericFold_lookup (ADDR : Nat) (tb : List Nat) (r : Int) (dd : Store) :
    ∀ m : Nat, ∀ i : Nat, i < m →
      ((List.range m).foldl (genericStep ADDR tb) (r, dd)).2 ADDR
          (toString (r + i)) =
        some (round3 ((field16 tb (2 * i + 3) : ℚ) / 32768)) := by
  intro m
  induction m with
  | zero => intro i hi; omega
  | succ m ih =>
    intro i hi
    rw [List.range_succ, List.foldl_append]
    simp only [List.foldl_cons, List.foldl_nil]
    show (((List.range m).foldl (genericStep ADDR tb) (r, dd)).2.set ADDR
        (toString ((List.range m).foldl (genericStep ADDR tb) (r, dd)).1)
        (round3 ((field16 tb (2 * m + 3) : ℚ) / 32768))) ADDR
        (toString (r + i)) = _
    rw [genericFold_fst ADDR tb m r dd]
    unfold Store.set
    by_cases him : i = m
    · subst him
      rw [if_pos ⟨rfl, rfl⟩]
    · rw [if_neg (fun hc => him (by
        have h1 := intToString_inj hc.2
        have h2 : (i : ℤ) = m := by omega
        exact_mod_cast h2))]
      exact ih i (by omega)

/-- The generic decode loop leaves every store entry outside its key range
unchanged. -/
lemma genericFold_untouched (ADDR : Nat) (tb : List Nat) (r : Int)
    (dd : Store) :
    ∀ m : Nat, ∀ a k, (a ≠ ADDR ∨ ∀ i : Nat, i < m → k ≠ toString (r + i)) →
      ((List.range m).foldl (genericStep ADDR tb) (r, dd)).2 a k = dd a k := by
  intro m
  induction m with
  | zero => intro a k _; rfl
  | succ m ih =>
    intro a k hk
    rw [List.range_succ, List.foldl_append]
    simp only [List.foldl_cons, List.foldl_nil]
    show (((List.range m).foldl (genericStep ADDR tb) (r, dd)).2.set ADDR
        (toString ((List.range m).foldl (genericStep ADDR tb) (r, dd)).1)
        (round3 ((field16 tb (2 * m + 3) : ℚ) / 32768))) a k = dd a k
    rw [genericFold_fst ADDR tb m r dd]
    unfold Store.set
    rw [if_neg (by
      rcases hk with ha | hall
      · exact fun hc => ha hc.1
      · exact fun hc => hall m (by omega) hc.2)]
    refine ih a k ?_
    rcases hk with ha | hall
    · exact Or.inl ha
    · exact Or.inr (fun i hi => hall i (by omega))

/-- C7: decoding a checksum-validated frame whose length byte `L` is not 24,
with the pending read context holding `r`, stores `L / 2` values for the
frame's address under the keys `str(r), str(r+1), ..., str(r + L/2 - 1)` —
each the signed big-endian 16-bit field at consecutive payload offsets,
scaled by `1/32768` and rounded to three decimals — leaves every other store
entry unchanged, and leaves the context equal to `r + L/2`. -/
theorem c7_generic_decode (addrLis : List Nat) (st : AsmState) (L : Nat)
    (r : Int) (hv : validFrame addrLis st.tempBytes)
    (hL2 : st.tempBytes.getD 2 0 = L) (hr : st.statReg = some r)
    (hL : L ≠ 24) :
    (processData st L).statReg = some (r + ((L / 2 : Nat) : ℤ)) ∧
    (∀ i : Nat, i < L / 2 → (processData st L).deviceData (st.tempBytes.getD 0 0)
        (toString (r + i)) =
      some (round3 ((field16 st.tempBytes (2 * i + 3) : ℚ) / 32768))) ∧
    (∀ a k, (a ≠ st.tempBytes.getD 0 0 ∨
        ∀ i : Nat, i < L / 2 → k ≠ toString (r + i)) →
      (processData st L).deviceData a k = st.deviceData a k) := by
  unfold processData
  rw [if_neg hL, hr]
  dsimp only
  refine ⟨?_, ?_, ?_⟩
  · rw [genericFold_fst]
  · intro i hi
    exact genericFold_lookup _ _ _ _ _ i hi
  · intro a k hk
    exact genericFold_untouched _ _ _ _ _ a k hk

theorem c7_witness :
    (validFrame [0x50] genState.tempBytes ∧ genState.tempBytes.getD 2 0 = 4 ∧
      genState.statReg = some 10 ∧ (4 : Nat) ≠ 24) ∧
    (processData genState 4).statReg = some 12 ∧
    (processData genState 4).deviceData 0x50 "10" =
      some (round3 ((field16 genState.tempBytes 3 : ℚ) / 32768)) ∧
    (processData genState 4).deviceData 0x50 "11" =
      some (round3 ((field16 genState.tempBytes 5 : ℚ) / 32768)) := by
  have h := c7_generic_decode [0x50] genState 4 10 (by decide) (by decide)
    rfl (by decide)
  refine ⟨⟨by decide, by decide, rfl, by decide⟩, ?_, ?_, ?_⟩
  · have h1 := h.1
    norm_num at h1
    exact h1
  · have h1 := h.2.1 0 (by decide)
    norm_num at h1
    exact h1
  · have h1 := h.2.1 1 (by decide)
    norm_num at h1
    exact h1

set_option maxRecDepth 4000 in
lemma auchCRCLo_nodup : auchCRCLo.Nodup := by decide

set_option maxRecDepth 4000 in
lemma auchCRCLo_length : auchCRCLo.length = 256 := by decide

set_option maxRecDepth 4000 in
lemma auchCRCLo_mem_lt : ∀ x ∈ auchCRCLo, x < 256 := by decide

lemma lo_getD_lt (i : Nat) : auchCRCLo.getD i 0 < 256 := by
  by_cases h : i < auchCRCLo.length
  · rw [List.getD_eq_getElem _ _ h]
    exact auchCRCLo_mem_lt _ (List.getElem_mem h)
  · rw [List.getD_eq_getElem?_getD, List.getElem?_eq_none (by omega),
      Option.getD_none]
    omega

/-- The low CRC table is a permutation of the bytes: reads at distinct
in-range indices are distinct. -/
lemma lo_getD_inj {i j : Nat} (hi : i < 256) (hj : j < 256)
    (h : auchCRCLo.getD i 0 = auchCRCLo.getD j 0) : i = j := by
  have hi' : i < auchCRCLo.length := by rw [auchCRCLo_length]; omega
  have hj' : j < auchCRCLo.length := by rw [auchCRCLo_length]; omega
  rw [List.getD_eq_getElem _ _ hi', List.getD_eq_getElem _ _ hj'] at h
  exact auchCRCLo_nodup.getElem_inj_iff.mp h

lemma and255_eq {x : Nat} (h : x < 256) : x &&& 0xff = x := by
  have h255 : (0xff : Nat) = 2 ^ 8 - 1 := rfl
  rw [h255, Nat.and_pow_two_sub_one_eq_mod]
  exact Nat.mod_eq_of_lt (by norm_num; omega)

lemma xor_right_cancel_nat {a b c : Nat} (h : a ^^^ b = c ^^^ b) : a = c := by
  have h2 := congrArg (· ^^^ b) h
  simpa [Nat.xor_assoc] using h2

lemma xor_left_cancel_nat {a b c : Nat} (h : a ^^^ b = a ^^^ c) : b = c := by
  have h2 := congrArg (a ^^^ ·) h
  simpa [← Nat.xor_assoc] using h2

/-- The CRC table index computed by one step, with a byte-sized high
accumulator. -/
lemma crcStep_idx {H : Nat} (b : Nat) (hH : H < 256) :
    (H ^^^ b) &&& 0xff = H ^^^ (b &&& 0xff) := by
  rw [Nat.and_xor_distrib_right, and255_eq hH]

/-- Cancel a common xor operand under a byte mask, for byte operands. -/
lemma masked_xor_cancel {a b X : Nat} (ha : a < 256) (hb : b < 256)
    (h : (a ^^^ X) &&& 0xff = (b ^^^ X) &&& 0xff) : a = b := by
  rw [Nat.and_xor_distrib_right, Nat.and_xor_distrib_right, and255_eq ha,
    and255_eq hb] at h
  exact xor_right_cancel_nat h

lemma crcStep_bounded {s : Nat × Nat} (b : Nat) (hs : crcBounded s) :
    crcBounded (crcStep s b) := by
  unfold crcStep crcBounded
  dsimp only
  refine ⟨?_, lo_getD_lt _⟩
  have := Nat.and_le_right (n := s.2 ^^^ auchCRCHi.getD ((s.1 ^^^ b) &&& 0xff) 0)
    (m := 0xff)
  omega

lemma idx_lt_256 (x : Nat) : x &&& 0xff < 256 := by
  have := Nat.and_le_right (n := x) (m := 0xff)
  omega

/-- One CRC step is injective in the accumulator state. -/
lemma crcStep_inj {s1 s2 : Nat × Nat} (b : Nat) (h1 : crcBounded s1)
    (h2 : crcBounded s2) (h : crcStep s1 b = crcStep s2 b) : s1 = s2 := by
  obtain ⟨h11, h12⟩ := h1
  obtain ⟨h21, h22⟩ := h2
  have hsnd := congrArg Prod.snd h
  have hfst := congrArg Prod.fst h
  unfold crcStep at hsnd hfst
  dsimp only at hsnd hfst
  have hidx := lo_getD_inj (idx_lt_256 _) (idx_lt_256 _) hsnd
  rw [crcStep_idx b h11, crcStep_idx b h21] at hidx
  have he1 : s1.1 = s2.1 := xor_right_cancel_nat hidx
  rw [he1] at hfst
  exact Prod.ext he1 (masked_xor_cancel h12 h22 hfst)

/-- One CRC step from a common state distinguishes distinct bytes. -/
lemma crcStep_ne_byte {s : Nat × Nat} {b c : Nat} (hs : crcBounded s)
    (hb : b < 256) (hc : c < 256) (hne : b ≠ c) :
    crcStep s b ≠ crcStep s c := by
  intro h
  have hsnd := congrArg Prod.snd h
  unfold crcStep at hsnd
  dsimp only at hsnd
  have hidx := lo_getD_inj (idx_lt_256 _) (idx_lt_256 _) hsnd
  rw [crcStep_idx b hs.1, crcStep_idx c hs.1, and255_eq hb, and255_eq hc]
    at hidx
  exact hne (xor_left_cancel_nat hidx)

lemma crcFold_bounded (xs : List Nat) : ∀ s, crcBounded s →
    crcBounded (xs.foldl crcStep s) := by
  induction xs with
  | nil => intro s hs; exact hs
  | cons x xs ih => intro s hs; exact ih _ (crcStep_bounded x hs)

/-- Running the CRC over a common byte suffix preserves state distinctness. -/
lemma crcFold_ne (xs : List Nat) : ∀ s1 s2, crcBounded s1 → crcBounded s2 →
    s1 ≠ s2 → xs.foldl crcStep s1 ≠ xs.foldl crcStep s2 := by
  induction xs with
  | nil => intro s1 s2 _ _ hne; exact hne
  | cons x xs ih =>
    intro s1 s2 h1 h2 hne
    exact ih _ _ (crcStep_bounded x h1) (crcStep_bounded x h2)
      (fun heq => hne (crcStep_inj x h1 h2 heq))

/-- Changing one byte of the checksummed region changes the CRC accumulator
pair. -/
lemma crcFold_set_ne (A : List Nat) (j c : Nat) (hj : j < A.length)
    (hA : ∀ x ∈ A, x < 256) (hc : c < 256) (hne : c ≠ A.getD j 0) :
    A.foldl crcStep (0xff, 0xff) ≠ (A.set j c).foldl crcStep (0xff, 0xff) := by
  have hsplitA : A = A.take j ++ A.getD j 0 :: A.drop (j + 1) := by
    conv_lhs => rw [← List.take_append_drop j A]
    rw [List.drop_eq_getElem_cons hj, List.getD_eq_getElem _ _ hj]
  have hsplitS : A.set j c = A.take j ++ c :: A.drop (j + 1) := by
    rw [List.set_eq_take_append_cons_drop, if_pos hj]
  rw [hsplitS]
  conv_lhs => rw [hsplitA]
  rw [List.foldl_append, List.foldl_append]
  simp only [List.foldl_cons]
  have hb0 : crcBounded (0xff, 0xff) := ⟨by omega, by omega⟩
  have hbs : crcBounded ((A.take j).foldl crcStep (0xff, 0xff)) :=
    crcFold_bounded _ _ hb0
  apply crcFold_ne _ _ _ (crcStep_bounded _ hbs) (crcStep_bounded _ hbs)
  apply crcStep_ne_byte hbs
  · exact hA _ (by rw [List.getD_eq_getElem _ _ hj]; exact List.getElem_mem hj)
  · exact hc
  · exact fun heq => hne heq.symm

lemma hiLo_hi {h l : Nat} (hl : l < 256) : ((h <<< 8) ||| l) >>> 8 = h := by
  apply Nat.eq_of_testBit_eq
  intro i
  rw [Nat.testBit_shiftRight, Nat.testBit_or, Nat.testBit_shiftLeft]
  have h8 : (8 : Nat) ≤ 8 + i := by omega
  have h256 : (2 : Nat) ^ 8 ≤ 2 ^ (8 + i) := Nat.pow_le_pow_right (by omega) (by omega)
  have hl' : l < 2 ^ (8 + i) := by norm_num at h256; omega
  rw [Nat.testBit_lt_two_pow hl']
  simp [h8, Nat.add_sub_cancel_left]

lemma hiLo_lo {h l : Nat} (hl : l < 256) : ((h <<< 8) ||| l) &&& 0xff = l := by
  have h255 : (0xff : Nat) = 2 ^ 8 - 1 := rfl
  rw [h255, Nat.and_pow_two_sub_one_eq_mod]
  apply Nat.eq_of_testBit_eq
  intro i
  rw [Nat.testBit_mod_two_pow]
  by_cases hi : i < 8
  · rw [Nat.testBit_or, Nat.testBit_shiftLeft]
    simp [hi, show ¬(8 ≤ i) by omega]
  · have h256 : (2 : Nat) ^ 8 ≤ 2 ^ i := Nat.pow_le_pow_right (by omega) (by omega)
    have hl' : l < 2 ^ i := by norm_num at h256; omega
    simp [hi, Nat.testBit_lt_two_pow hl']

/-- The checksum check holds exactly when the accumulator pair equals the
stored trailing bytes. -/
lemma crcOK_iff_pair (tb : List Nat) :
    crcOK tb ↔ ((crcPair tb (tb.length - 2)).1 = tb.getD (tb.length - 2) 0 ∧
      (crcPair tb (tb.length - 2)).2 = tb.getD (tb.length - 1) 0) := by
  have hb : crcBounded (crcPair tb (tb.length - 2)) :=
    crcFold_bounded _ _ ⟨by omega, by omega⟩
  unfold crcOK get_crc
  rw [hiLo_hi hb.2, hiLo_lo hb.2]

/-- Reading a `set` list away from the written index. -/
lemma getD_set_ne (l : List Nat) (j i c : Nat) (h : i ≠ j) :
    (l.set j c).getD i 0 = l.getD i 0 := by
  simp [List.getD_eq_getElem?_getD, List.getElem?_set_ne (Ne.symm h)]

/-- Corrupting one byte inside the checksummed region of a frame that passes
the checksum check makes the check fail. -/
lemma crcOK_set_false (F : List Nat) (j c : Nat) (hFb : ∀ x ∈ F, x < 256)
    (hj3 : 3 ≤ j) (hjlt : j < F.length - 2) (hlen : 5 ≤ F.length)
    (hc : c < 256) (hne : c ≠ F.getD j 0) (hcrc : crcOK F) :
    ¬crcOK (F.set j c) := by
  intro hcrc'
  have hlenset : (F.set j c).length = F.length := List.length_set F j c
  have hs1 : (F.set j c).getD (F.length - 2) 0 = F.getD (F.length - 2) 0 :=
    getD_set_ne F j (F.length - 2) c (by omega)
  have hs2 : (F.set j c).getD (F.length - 1) 0 = F.getD (F.length - 1) 0 :=
    getD_set_ne F j (F.length - 1) c (by omega)
  rw [crcOK_iff_pair] at hcrc hcrc'
  rw [hlenset, hs1, hs2] at hcrc'
  have hpairs : crcPair F (F.length - 2) = crcPair (F.set j c) (F.length - 2) :=
    Prod.ext (hcrc.1.trans hcrc'.1.symm) (hcrc.2.trans hcrc'.2.symm)
  unfold crcPair at hpairs
  rw [List.set_take] at hpairs
  exact crcFold_set_ne (F.take (F.length - 2)) j c
    (by rw [List.length_take]; omega)
    (fun x hx => hFb x (List.mem_of_mem_take hx))
    hc
    (by rw [getD_take_lt F _ _ _ (by omega)]; exact hne)
    hpairs

/-- Feeding the last byte of a valid frame to an assembler whose buffer
holds all the previous bytes passes every check and hands the frame to
`processData`, recording the emission. -/
lemma feedByte_completes (addrLis F : List Nat) (hv : validFrame addrLis F)
    (st : AsmState) (hst : st.tempBytes = F.take (F.length - 1)) :
    feedByte addrLis st (F.getD (F.length - 1) 0) =
      processData { st with tempBytes := F, emitted := st.emitted ++ [F] }
        (F.getD 2 0) := by
  obtain ⟨hm, hf, hn, hcrc⟩ := hv
  have hlen5 : 5 ≤ F.length := by omega
  have hsplit := take_last_split F (by omega)
  unfold feedByte
  dsimp only
  rw [hst, ← hsplit]
  rw [if_neg (not_not_intro hm), if_pos (by omega : F.length > 2),
    if_neg (not_not_intro hf), if_pos hn, if_pos hcrc]

/-- Feeding a complete frame that is well-headed but fails the checksum
check accumulates every byte and then drops only the first byte, emitting
nothing. -/
lemma feed_corrupt_frame (addrLis F' : List Nat)
    (h0 : F'.getD 0 0 ∈ addrLis) (h1 : F'.getD 1 0 = 0x03)
    (hn : F'.length = F'.getD 2 0 + 5) (hcrc : ¬crcOK F')
    (st : AsmState) (hst : st.tempBytes = []) :
    onDataReceived addrLis st F' = { st with tempBytes := F'.drop 1 } := by
  have hlen5 : 5 ≤ F'.length := by omega
  have hsplit := take_last_split F' (by omega)
  have hfold : onDataReceived addrLis st F' =
      feedByte addrLis (onDataReceived addrLis st (F'.take (F'.length - 1)))
        (F'.getD (F'.length - 1) 0) := by
    conv_lhs => rw [hsplit]
    simp [onDataReceived, List.foldl_append]
  rw [hfold, feed_prefix_accum addrLis F' h0 h1 hn (F'.length - 1) le_rfl st hst]
  unfold feedByte
  dsimp only
  rw [← hsplit]
  rw [if_neg (not_not_intro h0), if_pos (by omega : F'.length > 2),
    if_neg (not_not_intro h1), if_pos hn, if_neg hcrc]

/-- Splitting a feed into all-but-last bytes and then the final byte. -/
lemma onDataReceived_last (addrLis : List Nat) (st : AsmState) (F : List Nat)
    (h : 0 < F.length) :
    onDataReceived addrLis st F =
      feedByte addrLis (onDataReceived addrLis st (F.take (F.length - 1)))
        (F.getD (F.length - 1) 0) := by
  conv_lhs => rw [take_last_split F h]
  simp [onDataReceived, List.foldl_append]

/-- While the front of the buffer is a run of bytes that are not configured
addresses, each fed byte drops exactly one of them: feeding `xs` onto a
buffer `R ++ acc` with `R` all-garbage and at least as long as `xs` leaves
the buffer `R.drop xs.length ++ acc ++ xs` with no other state change. -/
lemma feed_drain (addrLis : List Nat) :
    ∀ (xs R acc : List Nat), (∀ b ∈ R, b ∉ addrLis) → xs.length ≤ R.length →
      ∀ st : AsmState, st.tempBytes = R ++ acc →
        onDataReceived addrLis st xs =
          { st with tempBytes := R.drop xs.length ++ acc ++ xs } := by
  intro xs
  induction xs with
  | nil =>
    intro R acc hR hlen st hst
    show st = _
    cases st with
    | mk t s d e =>
      simp only at hst
      subst hst
      simp
  | cons x xs ih =>
    intro R acc hR hlen st hst
    show onDataReceived addrLis (feedByte addrLis st x) xs = _
    have hRlen : 0 < R.length := by
      have : xs.length + 1 ≤ R.length := by simpa using hlen
      omega
    have hstep : feedByte addrLis st x =
        { st with tempBytes := R.drop 1 ++ ((acc ++ [x])) } := by
      unfold feedByte
      dsimp only
      rw [hst, List.append_assoc]
      have hhead : (R ++ (acc ++ [x])).getD 0 0 = R.getD 0 0 := by
        rw [List.getD_eq_getElem?_getD, List.getD_eq_getElem?_getD,
          List.getElem?_append_left hRlen]
      have hmem : (R ++ (acc ++ [x])).getD 0 0 ∉ addrLis := by
        rw [hhead]
        refine hR _ ?_
        rw [List.getD_eq_getElem _ _ hRlen]
        exact List.getElem_mem hRlen
      rw [if_pos hmem, List.drop_append_of_le_length (by omega)]
    rw [hstep,
      ih (R.drop 1) (acc ++ [x])
        (fun b hb => hR b (List.mem_of_mem_drop hb))
        (by rw [List.length_drop]; simp at hlen ⊢; omega)
        _ rfl]
    have hdd : (R.drop 1).drop xs.length = R.drop (x :: xs).length := by
      rw [List.drop_drop]
      congr 1
      simp [Nat.add_comm]
    congr 1
    rw [hdd]
    simp [List.append_assoc]

/-- C3 (amended): for a valid response frame `F` (of bytes) and a corruption
`F' = F` with one payload byte changed to a different byte value, provided no
byte of `F'` after its first is a configured device address, feeding `F'`
emits nothing (the checksum check fails and only the first byte is dropped),
and feeding `F'` followed by `F` from an empty buffer emits exactly one
frame, built from the bytes of `F`, by the time the last byte of `F` has
been fed. -/
theorem c3_corrupt_then_valid (addrLis F : List Nat) (j c : Nat)
    (sr : Option Int) (dd : Store)
    (hv : validFrame addrLis F) (hFb : ∀ x ∈ F, x < 256)
    (hj3 : 3 ≤ j) (hjlt : j < F.length - 2) (hc : c < 256)
    (hne : c ≠ F.getD j 0)
    (hres : ∀ i : Nat, i < F.length → 1 ≤ i → (F.set j c).getD i 0 ∉ addrLis) :
    (onDataReceived addrLis (initState sr dd) (F.set j c)).emitted = [] ∧
    (onDataReceived addrLis (initState sr dd) (F.set j c ++ F)).emitted = [F] := by
  obtain ⟨hm, hf, hn, hcrc⟩ := hv
  have hlen5 : 5 ≤ F.length := by omega
  have hlen' : (F.set j c).length = F.length := List.length_set F j c
  have h0' : (F.set j c).getD 0 0 = F.getD 0 0 := getD_set_ne F j 0 c (by omega)
  have h1' : (F.set j c).getD 1 0 = F.getD 1 0 := getD_set_ne F j 1 c (by omega)
  have h2' : (F.set j c).getD 2 0 = F.getD 2 0 := getD_set_ne F j 2 c (by omega)
  have hn' : (F.set j c).length = (F.set j c).getD 2 0 + 5 := by
    rw [hlen', h2']; exact hn
  have hcrcx : ¬crcOK (F.set j c) :=
    crcOK_set_false F j c hFb hj3 hjlt hlen5 hc hne hcrc
  have hphase1 : onDataReceived addrLis (initState sr dd) (F.set j c) =
      { initState sr dd with tempBytes := (F.set j c).drop 1 } :=
    feed_corrupt_frame addrLis (F.set j c) (by rw [h0']; exact hm)
      (by rw [h1']; exact hf) hn' hcrcx (initState sr dd) rfl
  refine ⟨by rw [hphase1]; rfl, ?_⟩
  have hsplitfold : onDataReceived addrLis (initState sr dd) (F.set j c ++ F) =
      onDataReceived addrLis
        (onDataReceived addrLis (initState sr dd) (F.set j c)) F := by
    simp [onDataReceived, List.foldl_append]
  rw [hsplitfold, hphase1]
  have hR : ∀ b ∈ (F.set j c).drop 1, b ∉ addrLis := by
    intro b hb
    obtain ⟨i, hilt, hget⟩ := List.getElem_of_mem hb
    have hgd : ((F.set j c).drop 1).getD i 0 = (F.set j c).getD (1 + i) 0 := by
      rw [List.getD_eq_getElem?_getD, List.getD_eq_getElem?_getD,
        List.getElem?_drop]
    have hb' : b = (F.set j c).getD (1 + i) 0 := by
      rw [← hgd, List.getD_eq_getElem _ _ hilt, hget]
    have hilt' : i < F.length - 1 := by
      have := hilt
      rw [List.length_drop, hlen'] at this
      omega
    rw [hb']
    exact hres (1 + i) (by omega) (by omega)
  have htklen : (F.take (F.length - 1)).length = F.length - 1 := by
    rw [List.length_take]; omega
  rw [onDataReceived_last addrLis
    { initState sr dd with tempBytes := (F.set j c).drop 1 } F (by omega)]
  rw [feed_drain addrLis (F.take (F.length - 1)) ((F.set j c).drop 1) []
    hR (by simp [htklen, List.length_drop, hlen'])
    { initState sr dd with tempBytes := (F.set j c).drop 1 } (by simp)]
  rw [feedByte_completes addrLis F ⟨hm, hf, hn, hcrc⟩ _ (by
    show ((F.set j c).drop 1).drop (F.take (F.length - 1)).length ++ [] ++
        F.take (F.length - 1) = F.take (F.length - 1)
    rw [htklen, List.drop_drop]
    have h1n : 1 + (F.length - 1) = (F.set j c).length := by
      rw [hlen']; omega
    rw [h1n, List.drop_length]
    simp)]
  rw [processData_emitted]
  simp [initState]

set_option maxRecDepth 8000 in
/-- C3 counterexample: `c3F` is a valid frame for addresses `[0x50]`, and
`c3F.set 6 0x01` corrupts exactly one payload byte of it, yet feeding the
corrupted copy followed by the intact frame emits nothing at all — the
claim's promised single emission of `c3F` does not happen. -/
theorem c3_counterexample :
    validFrame [0x50] c3F ∧ 3 ≤ 6 ∧ (6 : Nat) < c3F.length - 2 ∧
    (0x01 : Nat) < 256 ∧ (0x01 : Nat) ≠ c3F.getD 6 0 ∧
    (onDataReceived [0x50] (initState none (fun _ _ => none))
        (c3F.set 6 0x01 ++ c3F)).emitted = [] ∧
    (onDataReceived [0x50] (initState none (fun _ _ => none))
        (c3F.set 6 0x01 ++ c3F)).emitted ≠ [c3F] := by
  exact ⟨by decide, by decide, by decide, by decide, by decide, by decide,
    by decide⟩

set_option maxRecDepth 8000 in
theorem c3_witness :
    (validFrame [0x50] frame7 ∧ (∀ x ∈ frame7, x < 256) ∧ (3 : Nat) ≤ 3 ∧
      (3 : Nat) < frame7.length - 2 ∧ (0x01 : Nat) < 256 ∧
      (0x01 : Nat) ≠ frame7.getD 3 0 ∧
      (∀ i : Nat, i < frame7.length → 1 ≤ i →
        (frame7.set 3 0x01).getD i 0 ∉ ([0x50] : List Nat))) ∧
    (onDataReceived [0x50] (initState none (fun _ _ => none))
        (frame7.set 3 0x01)).emitted = [] ∧
    (onDataReceived [0x50] (initState none (fun _ _ => none))
        (frame7.set 3 0x01 ++ frame7)).emitted = [frame7] :=
  ⟨⟨by decide, by decide, by decide, by decide, by decide, by decide,
      by decide⟩,
    c3_corrupt_then_valid [0x50] frame7 3 0x01 none (fun _ _ => none)
      (by decide) (by decide) (by decide) (by decide) (by decide) (by decide)
      (by decide)⟩
